import Mathlib

/-!
Verification development for the `bls_tests` CLI tool.

The repository builds notarized ledger transactions, submits them to a
gateway, polls until the reported status is terminal, and extracts the
result bytes from the committed receipt.  This file gives a shallow
embedding, in Lean, of:

* `create_notarized_transaction` and `transaction_output` (src/utils.rs);
* `CliCtx::new` and `CliCtx::execute_transaction` (src/cli.rs), the latter
  as an executable trace semantics over an abstract gateway oracle;
* the bech32-style address/hash codec that the CLI binds to the selected
  network (the codec itself lives in the external radix library; it is
  modelled from the specification, §4.1).

The gateway client module (`mod gateway`) is declared in src/main.rs but its
source is not part of the repository snapshot; its data types
(`SubmissionResult`, `TransactionDetails`, the status response) are modelled
from the specification (§3 and §6).

Machine integers are modelled as `Nat` with explicit reduction modulo
`2 ^ 64` where u64 overflow matters.
-/

/-- Size of the u64 value space; u64 arithmetic is `Nat` arithmetic modulo this. -/
def u64Size : Nat := 2 ^ 64

/-- `NetworkDefinition` from the radix transaction prelude: numeric id (u8),
logical name and hrp suffix, exactly the three fields `CliCtx::new` fills in. -/
structure NetworkDefinition where
  id : Nat
  logical_name : String
  hrp_suffix : String
deriving DecidableEq, Repr

/-- Ledger epoch, a wrapped u64 (`Epoch::of`). -/
structure Epoch where
  value : Nat
deriving DecidableEq, Repr

/-- `Epoch::of`: wrap a u64 number as an epoch. -/
def Epoch.of (n : Nat) : Epoch := ⟨n⟩

/-- Modelled from the spec: the secp256k1 private key handle (§6, signature
primitive is external).  Only determinism of key-derived data matters here. -/
structure Secp256k1PrivateKey where
  val : Nat
deriving DecidableEq, Repr

/-- Modelled from the spec: the notary public key derived from a private key. -/
structure Secp256k1PublicKey where
  val : Nat
deriving DecidableEq, Repr

/-- Modelled from the spec: `private_key.public_key()`, a deterministic pure
derivation of the public key from the private key (external crypto layer). -/
def Secp256k1PrivateKey.public_key (k : Secp256k1PrivateKey) : Secp256k1PublicKey :=
  ⟨k.val⟩

/-- `TransactionManifestV1`: the spec treats the manifest as an opaque
immutable byte-producing value (§3); modelled as its byte sequence. -/
structure TransactionManifestV1 where
  bytes : List Nat
deriving DecidableEq, Repr

/-- `TransactionHeaderV1` with the seven fields set by
`create_notarized_transaction`. -/
structure TransactionHeaderV1 where
  network_id : Nat
  start_epoch_inclusive : Epoch
  end_epoch_exclusive : Epoch
  nonce : Nat
  notary_public_key : Secp256k1PublicKey
  notary_is_signatory : Bool
  tip_percentage : Nat
deriving DecidableEq, Repr

/-- The intent hash, the content-derived identifier of (header, manifest). -/
abbrev IntentHash := Nat

/-- Header fields rendered as a flat number sequence, input of the intent hash. -/
def headerFieldList (h : TransactionHeaderV1) : List Nat :=
  [h.network_id, h.start_epoch_inclusive.value, h.end_epoch_exclusive.value,
   h.nonce, h.notary_public_key.val, cond h.notary_is_signatory 1 0,
   h.tip_percentage]

/-- Modelled from the spec: the ledger's canonical hashing scheme for the
transaction intent (§3, §4.2) — a deterministic pure function of the header
and the manifest bytes, realised here as an executable fold. -/
def intentHashOf (h : TransactionHeaderV1) (m : TransactionManifestV1) : IntentHash :=
  (headerFieldList h ++ m.bytes).foldl (fun a x => (a * 1000003 + x) % 1000000007) 7

/-- Modelled from the spec: the notary signature over the intent (§6,
signature primitive is external); deterministic in key and intent hash. -/
structure NotarySignatureV1 where
  val : Nat
deriving DecidableEq, Repr

/-- Modelled from the spec: signing the intent hash with the notary key. -/
def notarySign (k : Secp256k1PrivateKey) (ih : IntentHash) : NotarySignatureV1 :=
  ⟨k.val * 2 + ih⟩

/-- `NotarizedTransactionV1`: header + manifest + notary signature. -/
structure NotarizedTransactionV1 where
  header : TransactionHeaderV1
  manifest : TransactionManifestV1
  notary_signature : NotarySignatureV1
deriving DecidableEq, Repr

/-- `create_notarized_transaction` (src/utils.rs): builds the header with the
hardcoded policy fields (`nonce = 5`, `notary_is_signatory = false`,
`tip_percentage = 0`, validity window of 10 epochs), attaches the manifest,
notarizes with the supplied private key, and returns the transaction together
with its intent hash.  `epoch + 10` is u64 addition, hence the reduction
modulo `u64Size`. -/
def create_notarized_transaction (network_definition : NetworkDefinition)
    (epoch : Nat) (private_key : Secp256k1PrivateKey)
    (manifest : TransactionManifestV1) : NotarizedTransactionV1 × IntentHash :=
  let header : TransactionHeaderV1 :=
    { network_id := network_definition.id
      start_epoch_inclusive := Epoch.of (epoch % u64Size)
      end_epoch_exclusive := Epoch.of ((epoch + 10) % u64Size)
      nonce := 5
      notary_public_key := private_key.public_key
      notary_is_signatory := false
      tip_percentage := 0 }
  let intent_hash := intentHashOf header manifest
  ({ header := header, manifest := manifest,
     notary_signature := notarySign private_key intent_hash }, intent_hash)

/-- Modelled from the spec: `TransactionDetails` (gateway module source is
absent from the snapshot) — the committed receipt, an ordered sequence of
per-instruction output slots plus an optional error descriptor (§3). -/
structure TransactionDetails where
  outputs : List String
  error_message : Option String
deriving DecidableEq, Repr

/-- Modelled from the spec: `details.get_output(i)` returns the receipt's
output slot at index `i` when present. -/
def TransactionDetails.get_output (d : TransactionDetails) (i : Nat) : Option String :=
  d.outputs.get? i

/-- Modelled from the spec: `details.get_error()` returns the receipt's
optional error descriptor. -/
def TransactionDetails.get_error (d : TransactionDetails) : Option String :=
  d.error_message

/-- One hex digit (`hex::decode` accepts both cases). -/
def hexDigit (c : Char) : Option Nat :=
  let n := c.toNat
  if 48 ≤ n ∧ n ≤ 57 then some (n - 48)
  else if 97 ≤ n ∧ n ≤ 102 then some (n - 87)
  else if 65 ≤ n ∧ n ≤ 70 then some (n - 55)
  else none

/-- `hex::decode` on a character list: pairs of hex digits to bytes; rejects
odd length and non-hex characters. -/
def hexDecodeList : List Char → Option (List Nat)
  | [] => some []
  | c1 :: c2 :: rest =>
    match hexDigit c1, hexDigit c2, hexDecodeList rest with
    | some h, some l, some bs => some ((16 * h + l) :: bs)
    | _, _, _ => none
  | [_] => none

/-- Outcome of `transaction_output`, with Rust panics made explicit:
`panicked e` is the `panic!("Transaction error: {:?}", error)` branch
carrying the receipt's error descriptor, `panickedNoError` the
`get_error().unwrap()` panic on a receipt without a descriptor, and
`panickedHex` the `hex::decode(..).unwrap()` panic on malformed hex. -/
inductive ExtractResult where
  | ok (bytes : List Nat)
  | panicked (descriptor : String)
  | panickedNoError
  | panickedHex
deriving DecidableEq, Repr

/-- `transaction_output` (src/utils.rs): reads receipt output slot 1 and
hex-decodes it; when the slot is absent it unwraps the error descriptor and
panics with it. -/
def transaction_output (details : TransactionDetails) : ExtractResult :=
  match details.get_output 1 with
  | some output =>
    match hexDecodeList output.data with
    | some bytes => ExtractResult.ok bytes
    | none => ExtractResult.panickedHex
  | none =>
    match details.get_error with
    | some error => ExtractResult.panicked error
    | none => ExtractResult.panickedNoError

/-! ## CliCtx construction (src/cli.rs, `CliCtx::new`) -/

/-- Enkinet network id (src/cli.rs `NETWORK_ID`). -/
def NETWORK_ID : Nat := 0x21

/-- Enkinet network name (src/cli.rs `NETWORK_NAME`). -/
def NETWORK_NAME : String := "enkinet"

/-- Enkinet hrp suffix (src/cli.rs `NETWORK_HRP_SUFFIX`). -/
def NETWORK_HRP_SUFFIX : String := "tdx_21_"

/-- Enkinet gateway URL (src/cli.rs `GATEWAY_URL`). -/
def GATEWAY_URL : String := "https://enkinet-gateway.radixdlt.com"

/-- Mardunet network id (src/cli.rs `MARDUNET_NETWORK_ID`). -/
def MARDUNET_NETWORK_ID : Nat := 0x24

/-- Mardunet network name (src/cli.rs `MARDUNET_NETWORK_NAME`). -/
def MARDUNET_NETWORK_NAME : String := "mardunet"

/-- Mardunet hrp suffix (src/cli.rs `MARDUNET_NETWORK_HRP_SUFFIX`). -/
def MARDUNET_NETWORK_HRP_SUFFIX : String := "tdx_24_"

/-- Mardunet gateway URL (src/cli.rs `MARDUNET_GATEWAY_URL`). -/
def MARDUNET_GATEWAY_URL : String := "https://mardunet-gateway.radixdlt.com"

/-- Modelled from the spec: the gateway HTTP client (gateway module source is
absent from the snapshot); its constructor only records the base URL — the
network operations of §6 are separate calls, modelled below. -/
structure GatewayApiClient where
  url : String
deriving DecidableEq, Repr

/-- `GatewayApiClient::new`. -/
def GatewayApiClient.new (url : String) : GatewayApiClient := ⟨url⟩

/-- `AddressBech32Decoder::new` binds the decoder to the network definition. -/
structure AddressBech32Decoder where
  network : NetworkDefinition
deriving DecidableEq, Repr

/-- `AddressBech32Encoder::new` binds the encoder to the network definition. -/
structure AddressBech32Encoder where
  network : NetworkDefinition
deriving DecidableEq, Repr

/-- `TransactionHashBech32Encoder::new` binds the hash encoder to the network. -/
structure TransactionHashBech32Encoder where
  network : NetworkDefinition
deriving DecidableEq, Repr

/-- The CLI context assembled by `CliCtx::new` (src/cli.rs). -/
structure CliCtx where
  gateway : GatewayApiClient
  network_definition : NetworkDefinition
  address_decoder : AddressBech32Decoder
  address_encoder : AddressBech32Encoder
  hash_encoder : TransactionHashBech32Encoder
  private_key : Secp256k1PrivateKey
deriving DecidableEq, Repr

/-- `CliCtx::new` (src/cli.rs): matches the network name against
`"mardunet"` and `"enkinet"`, building the corresponding gateway client and
network definition, and panics on any other name.  The panic is made
explicit as `Except.error` carrying the panic message.  The private key is
`Secp256k1PrivateKey::from_u64(3)`. -/
def CliCtx.new (network_name : String) : Except String CliCtx :=
  if network_name == MARDUNET_NETWORK_NAME then
    let nd : NetworkDefinition :=
      ⟨MARDUNET_NETWORK_ID, MARDUNET_NETWORK_NAME, MARDUNET_NETWORK_HRP_SUFFIX⟩
    Except.ok
      { gateway := GatewayApiClient.new MARDUNET_GATEWAY_URL
        network_definition := nd
        address_decoder := ⟨nd⟩
        address_encoder := ⟨nd⟩
        hash_encoder := ⟨nd⟩
        private_key := ⟨3⟩ }
  else if network_name == NETWORK_NAME then
    let nd : NetworkDefinition := ⟨NETWORK_ID, NETWORK_NAME, NETWORK_HRP_SUFFIX⟩
    Except.ok
      { gateway := GatewayApiClient.new GATEWAY_URL
        network_definition := nd
        address_decoder := ⟨nd⟩
        address_encoder := ⟨nd⟩
        hash_encoder := ⟨nd⟩
        private_key := ⟨3⟩ }
  else
    Except.error ("Network '" ++ network_name ++ "' not supported")

/-! ## Submission-confirmation state machine (src/cli.rs, `execute_transaction`)

`execute_transaction` performs, in strict sequence: a `current_epoch` query,
`create_notarized_transaction`, one `transaction_submit`, then a polling loop
of `transaction_status` queries that breaks on the first response whose
status field differs from `"Pending"`, then one `transaction_details` query.
The remote gateway is modelled as an oracle assigning to the `i`-th status
query its raw outcome; the unbounded `loop` is run on explicit fuel. -/

/-- Modelled from the spec: `SubmissionResult` (§6): optional validation
error message with code and details. -/
structure SubmissionResult where
  message : Option String
  code : Option Nat
  details : Option String
deriving DecidableEq, Repr

/-- Raw outcome of one status query: either a transient transport failure
(`fail`, spec §7: retried automatically during polling — gateway module
source is absent, behaviour modelled from the spec) or a gateway response
carrying the status string (§6). -/
inductive RawStatus where
  | fail
  | ok (status : String)
deriving DecidableEq, Repr

/-- The remote gateway as a deterministic oracle: the current epoch, the
submission response, the outcome assigned to the `i`-th status query, and
the committed transaction details. -/
structure GatewayOracle where
  epoch : Nat
  submitResult : SubmissionResult
  statusAt : Nat → RawStatus
  txDetails : TransactionDetails

/-- Observable gateway interactions of one `execute_transaction` run. -/
inductive GwEvent where
  | currentEpoch
  | submit
  | statusQuery (i : Nat)
  | detailsQuery
deriving DecidableEq, Repr

/-- Result of `execute_transaction`: `submitFailed` is the
`panic!("")` branch on a submission validation error, `stillPolling` means
the fuel ran out with the loop still running (the source loop is unbounded),
and `finished` carries the status that broke the loop and the fetched
details. -/
inductive ExecOutcome where
  | submitFailed (message : String)
  | stillPolling
  | finished (status : String) (details : TransactionDetails)
deriving DecidableEq, Repr

/-- The polling loop of `execute_transaction`: the `i`-th iteration issues
status query `i`; a response whose status equals `"Pending"` sleeps and
retries, any other response breaks the loop; a transient failure retries the
query itself (spec §7).  Returns the breaking status (if reached within
fuel) and the list of issued queries. -/
def pollLoop (gw : GatewayOracle) : Nat → Nat → Option String × List GwEvent
  | 0, _ => (none, [])
  | fuel + 1, i =>
    match gw.statusAt i with
    | RawStatus.fail =>
      let r := pollLoop gw fuel (i + 1)
      (r.1, GwEvent.statusQuery i :: r.2)
    | RawStatus.ok s =>
      if s == "Pending" then
        let r := pollLoop gw fuel (i + 1)
        (r.1, GwEvent.statusQuery i :: r.2)
      else
        (some s, [GwEvent.statusQuery i])

/-- `CliCtx::execute_transaction` (src/cli.rs) as a trace semantics: queries
the current epoch, builds the notarized transaction, submits it once; a
submission validation error panics before any status query; otherwise the
polling loop runs and, once it breaks, the transaction details are fetched. -/
def execute_transaction (gw : GatewayOracle) (nd : NetworkDefinition)
    (pk : Secp256k1PrivateKey) (manifest : TransactionManifestV1)
    (fuel : Nat) : ExecOutcome × List GwEvent :=
  let txih := create_notarized_transaction nd gw.epoch pk manifest
  let _intent_hash := txih.2
  match gw.submitResult.message with
  | some m => (ExecOutcome.submitFailed m, [GwEvent.currentEpoch, GwEvent.submit])
  | none =>
    let r := pollLoop gw fuel 0
    match r.1 with
    | none =>
      (ExecOutcome.stillPolling, GwEvent.currentEpoch :: GwEvent.submit :: r.2)
    | some s =>
      (ExecOutcome.finished s gw.txDetails,
       GwEvent.currentEpoch :: GwEvent.submit :: (r.2 ++ [GwEvent.detailsQuery]))

/-- The status responses observed by the queries of an event trace, under a
given gateway oracle. -/
def queryResults (gw : GatewayOracle) (evs : List GwEvent) : List RawStatus :=
  evs.filterMap fun e =>
    match e with
    | GwEvent.statusQuery i => some (gw.statusAt i)
    | _ => none

/-- The gateway oracle with the first status-query outcome dropped. -/
def GatewayOracle.shiftStatus (gw : GatewayOracle) : GatewayOracle :=
  { gw with statusAt := fun i => gw.statusAt (i + 1) }

/-! ## Address/Hash bech32-style codec

Modelled from the spec (§4.1): the codec itself is provided by the external
radix library (`AddressBech32Encoder` / `AddressBech32Decoder`, constructed
in `CliCtx::new`); the spec fixes its contract — the encoded text is an
entity-kind human-readable part combined with the network's hrp suffix, a
separator, and a checksummed lower-case base-32 rendering of the raw bytes;
decoding verifies the prefix against the bound network, the checksum, and
the fixed byte length of the entity kind. -/

/-- Entity kinds the CLI uses the codec for: package addresses
(`AddressBech32Encoder`/`Decoder`) and transaction ids
(`TransactionHashBech32Encoder`). -/
inductive EntityKind where
  | packageAddress
  | transactionId
deriving DecidableEq, Repr

/-- Fixed raw byte length per entity kind (package addresses are 30 bytes,
transaction hashes 32 bytes). -/
def entityLen : EntityKind → Nat
  | EntityKind.packageAddress => 30
  | EntityKind.transactionId => 32

/-- The entity-kind-specific leading part of the human-readable part. -/
def kindHrpPart : EntityKind → List Char
  | EntityKind.packageAddress => ['p', 'a', 'c', 'k', 'a', 'g', 'e', '_']
  | EntityKind.transactionId => ['t', 'x', 'i', 'd', '_']

/-- The human-readable part: entity kind part followed by the bound
network's hrp suffix (e.g. `package_tdx_21_`). -/
def hrpOf (nd : NetworkDefinition) (k : EntityKind) : List Char :=
  kindHrpPart k ++ nd.hrp_suffix.data

/-- The 32-character bech32 data charset (values 0..31). -/
def bech32Charset : List Char :=
  ['q', 'p', 'z', 'r', 'y', '9', 'x', '8', 'g', 'f', '2', 't', 'v', 'd', 'w',
   '0', 's', '3', 'j', 'n', '5', '4', 'k', 'h', 'c', 'e', '6', 'm', 'u', 'a',
   '7', 'l']

/-- Data character of a 5-bit value. -/
def valToChar (v : Nat) : Char := bech32Charset.getD v '?'

/-- 5-bit value of a data character; `none` for characters outside the charset. -/
def charToVal (c : Char) : Option Nat := bech32Charset.findIdx? (fun d => d == c)

/-- The eight bits of a byte, most significant first. -/
def byteBits (n : Nat) : List Bool :=
  [n / 128 % 2 == 1, n / 64 % 2 == 1, n / 32 % 2 == 1, n / 16 % 2 == 1,
   n / 8 % 2 == 1, n / 4 % 2 == 1, n / 2 % 2 == 1, n % 2 == 1]

/-- Bit sequence of a byte string, each byte most significant bit first. -/
def bytesToBits : List Nat → List Bool
  | [] => []
  | b :: rest => byteBits b ++ bytesToBits rest

/-- Pad a bit sequence with zero bits to a multiple of five. -/
def pad5 (bits : List Bool) : List Bool :=
  bits ++ List.replicate ((5 - bits.length % 5) % 5) false

/-- Value of five bits, most significant first. -/
def bits5Val (a b c d e : Bool) : Nat :=
  16 * cond a 1 0 + 8 * cond b 1 0 + 4 * cond c 1 0 + 2 * cond d 1 0 + cond e 1 0

/-- Group a bit sequence into 5-bit values (incomplete trailing bits dropped). -/
def group5 : List Bool → List Nat
  | a :: b :: c :: d :: e :: rest => bits5Val a b c d e :: group5 rest
  | _ => []

/-- The five bits of a 5-bit value, most significant first. -/
def val5Bits (v : Nat) : List Bool :=
  [v / 16 % 2 == 1, v / 8 % 2 == 1, v / 4 % 2 == 1, v / 2 % 2 == 1, v % 2 == 1]

/-- Bit sequence of a list of 5-bit values. -/
def ungroup5 : List Nat → List Bool
  | [] => []
  | v :: rest => val5Bits v ++ ungroup5 rest

/-- Value of eight bits, most significant first. -/
def bits8Val (b0 b1 b2 b3 b4 b5 b6 b7 : Bool) : Nat :=
  128 * cond b0 1 0 + 64 * cond b1 1 0 + 32 * cond b2 1 0 + 16 * cond b3 1 0 +
  8 * cond b4 1 0 + 4 * cond b5 1 0 + 2 * cond b6 1 0 + cond b7 1 0

/-- Regroup a bit sequence into bytes (incomplete trailing bits dropped,
matching the discarding of the zero padding added by encoding). -/
def bitsToBytes : List Bool → List Nat
  | b0 :: b1 :: b2 :: b3 :: b4 :: b5 :: b6 :: b7 :: rest =>
    bits8Val b0 b1 b2 b3 b4 b5 b6 b7 :: bitsToBytes rest
  | _ => []

/-- The checksum accumulator over the human-readable part and the data
values, reduced modulo `32 ^ 6` so it fits in six data characters. -/
def checksumNat (hrp : List Char) (data : List Nat) : Nat :=
  data.foldl (fun a v => (a * 33 + v) % 1073741824)
    (hrp.foldl (fun a c => (a * 131 + c.toNat) % 1073741824) 1)

/-- The six 5-bit digits of a checksum accumulator, most significant first. -/
def checksumDigits (n : Nat) : List Nat :=
  [n / 33554432 % 32, n / 1048576 % 32, n / 32768 % 32, n / 1024 % 32,
   n / 32 % 32, n % 32]

/-- `pre` is a character-wise leading segment of the second list. -/
def leadsList : List Char → List Char → Bool
  | [], _ => true
  | _ :: _, [] => false
  | a :: as, b :: bs => a == b && leadsList as bs

/-- Map every character back to its 5-bit value; `none` when any character
is outside the data charset. -/
def allVals : List Char → Option (List Nat)
  | [] => some []
  | c :: rest =>
    match charToVal c, allVals rest with
    | some v, some vs => some (v :: vs)
    | _, _ => none

/-- `encode` (spec §4.1): human-readable part, the `'1'` separator, the
base-32 data characters of the padded bit sequence of the raw bytes, and six
checksum characters. -/
def encodeAddr (nd : NetworkDefinition) (k : EntityKind) (b : List Nat) :
    List Char :=
  let hrp := hrpOf nd k
  let vals := group5 (pad5 (bytesToBits b))
  let chk := checksumDigits (checksumNat hrp vals)
  hrp ++ '1' :: (vals.map valToChar ++ chk.map valToChar)

/-- Decode a text for one candidate entity kind: verify the human-readable
part expected for the bound network and this kind, map the data characters
back to 5-bit values, verify the checksum, regroup into bytes, and verify
the fixed byte length of the kind. -/
def decodeForKind (nd : NetworkDefinition) (k : EntityKind)
    (text : List Char) : Option (List Nat) :=
  let hrp := hrpOf nd k
  if leadsList (hrp ++ ['1']) text then
    let payload := text.drop (hrp.length + 1)
    if payload.length < 6 then none
    else
      let dataChars := payload.take (payload.length - 6)
      let chkChars := payload.drop (payload.length - 6)
      match allVals dataChars, allVals chkChars with
      | some vals, some chk =>
        if chk = checksumDigits (checksumNat hrp vals) then
          let bytes := bitsToBytes (ungroup5 vals)
          if bytes.length = entityLen k then some bytes else none
        else none
      | _, _ => none
  else none

/-- `decode` (spec §4.1): partial; tries the known entity kinds of the bound
network and returns the recognised kind together with the raw bytes. -/
def decodeAddr (nd : NetworkDefinition) (text : List Char) :
    Option (EntityKind × List Nat) :=
  match decodeForKind nd EntityKind.packageAddress text with
  | some b => some (EntityKind.packageAddress, b)
  | none =>
    match decodeForKind nd EntityKind.transactionId text with
    | some b => some (EntityKind.transactionId, b)
    | none => none

/-! ## Concrete values used by counterexamples and witnesses -/

/-- The Enkinet network definition as built by `CliCtx::new`. -/
def enkinetDef : NetworkDefinition := ⟨NETWORK_ID, NETWORK_NAME, NETWORK_HRP_SUFFIX⟩

/-- The hardcoded CLI notary key, `Secp256k1PrivateKey::from_u64(3)`. -/
def testKey : Secp256k1PrivateKey := ⟨3⟩

/-- An empty opaque manifest. -/
def emptyManifest : TransactionManifestV1 := ⟨[]⟩

/-- The `"Pending"` status string. -/
def pendingStatus : String := "Pending"

/-- The `"CommittedSuccess"` status string. -/
def committedSuccessStatus : String := "CommittedSuccess"

/-- The `"CommittedFailure"` status string. -/
def committedFailureStatus : String := "CommittedFailure"

/-- The `"Rejected"` status string. -/
def rejectedStatus : String := "Rejected"

/-- The `"Unknown"` status string. -/
def unknownStatus : String := "Unknown"

/-- A sample receipt error descriptor. -/
def cexDescriptor : String := "OperationReverted"

/-- A sample submission validation error message. -/
def submitErrMsg : String := "Duplicate intent"

/-- A gateway whose submission response carries a validation error. -/
def gwSubmitRejected : GatewayOracle :=
  { epoch := 3
    submitResult := ⟨some submitErrMsg, some 400, some submitErrMsg⟩
    statusAt := fun _ => RawStatus.ok pendingStatus
    txDetails := ⟨[], none⟩ }

/-- A gateway that reports the non-terminal status `Unknown` on every poll. -/
def gwUnknown : GatewayOracle :=
  { epoch := 3
    submitResult := ⟨none, none, none⟩
    statusAt := fun _ => RawStatus.ok unknownStatus
    txDetails := ⟨[], none⟩ }

/-- A gateway that reports `Pending` once and then `CommittedSuccess`. -/
def gwSuccess : GatewayOracle :=
  { epoch := 3
    submitResult := ⟨none, none, none⟩
    statusAt := fun i => if i == 0 then RawStatus.ok pendingStatus
                         else RawStatus.ok committedSuccessStatus
    txDetails := ⟨[], none⟩ }

/-- A gateway with an unchanged remote state: every status query reports
`CommittedSuccess`. -/
def gwConstSuccess : GatewayOracle :=
  { epoch := 3
    submitResult := ⟨none, none, none⟩
    statusAt := fun _ => RawStatus.ok committedSuccessStatus
    txDetails := ⟨[], none⟩ }

/-- A gateway whose first status query fails transiently and which reports
`CommittedSuccess` afterwards. -/
def gwFlaky : GatewayOracle :=
  { epoch := 3
    submitResult := ⟨none, none, none⟩
    statusAt := fun i => if i == 0 then RawStatus.fail
                         else RawStatus.ok committedSuccessStatus
    txDetails := ⟨[], none⟩ }

/-- A network name supported by neither match arm of `CliCtx::new`. -/
def badNetworkName : String := "stokenet"

/-- A concrete 30-byte package-address raw value for the codec scenario. -/
def samplePackageBytes : List Nat :=
  [13, 151, 194, 111, 240, 169, 228, 91, 110, 10, 141, 60, 211, 101, 149, 123,
   184, 222, 151, 160, 109, 230, 244, 63, 245, 107, 136, 111, 12, 232]

/-! # Theorems -/

/-! ## C1 — receipt result extractor on an absent output slot -/

/-- C1 counterexample: on a receipt with no entry at output slot 1 and a
non-null error descriptor, `transaction_output` panics (carrying the
descriptor) — refuting the claim that the extractor never panics. -/
theorem C1_counterexample :
    transaction_output ⟨[], some cexDescriptor⟩ =
      ExtractResult.panicked cexDescriptor := rfl

/-- C1 (amended): whenever the requested output slot 1 is absent and the
receipt's error descriptor is present, `transaction_output` reads the
descriptor and aborts with a panic that carries it; it never returns an
output value or an empty result in that case. -/
theorem C1_absent_slot_panics_with_descriptor (d : TransactionDetails)
    (err : String) (hout : d.get_output 1 = none)
    (herr : d.get_error = some err) :
    transaction_output d = ExtractResult.panicked err := by
  simp [transaction_output, hout, herr]

/-- C1 witness: the amended theorem at a concrete receipt. -/
theorem C1_witness :
    (⟨[], some cexDescriptor⟩ : TransactionDetails).get_output 1 = none ∧
    (⟨[], some cexDescriptor⟩ : TransactionDetails).get_error =
      some cexDescriptor ∧
    transaction_output ⟨[], some cexDescriptor⟩ =
      ExtractResult.panicked cexDescriptor :=
  ⟨rfl, rfl, C1_absent_slot_panics_with_descriptor ⟨[], some cexDescriptor⟩
    cexDescriptor rfl rfl⟩

/-! ## C4 — header fields of `create_notarized_transaction` -/

/-- C4: for every network definition, u64 epoch value, private key and
manifest, `create_notarized_transaction` builds a header with
`network_id = nd.id`, `start_epoch_inclusive = e`,
`end_epoch_exclusive = e + 10` (u64 addition),
`notary_is_signatory = false`, `tip_percentage = 0` and
`notary_public_key` derived from the supplied private key. -/
theorem C4_header_fields (nd : NetworkDefinition) (e : Nat)
    (pk : Secp256k1PrivateKey) (m : TransactionManifestV1)
    (he : e < u64Size) :
    (create_notarized_transaction nd e pk m).1.header.network_id = nd.id ∧
    (create_notarized_transaction nd e pk m).1.header.start_epoch_inclusive =
      Epoch.of e ∧
    (create_notarized_transaction nd e pk m).1.header.end_epoch_exclusive =
      Epoch.of ((e + 10) % u64Size) ∧
    (create_notarized_transaction nd e pk m).1.header.notary_is_signatory =
      false ∧
    (create_notarized_transaction nd e pk m).1.header.tip_percentage = 0 ∧
    (create_notarized_transaction nd e pk m).1.header.notary_public_key =
      pk.public_key := by
  refine ⟨rfl, ?_, rfl, rfl, rfl, rfl⟩
  simp [create_notarized_transaction, Epoch.of, Nat.mod_eq_of_lt he]

/-- C4 witness: the header-field theorem at concrete inputs. -/
theorem C4_witness :
    5 < u64Size ∧
    ((create_notarized_transaction enkinetDef 5 testKey emptyManifest).1.header.network_id = enkinetDef.id ∧
     (create_notarized_transaction enkinetDef 5 testKey emptyManifest).1.header.start_epoch_inclusive = Epoch.of 5 ∧
     (create_notarized_transaction enkinetDef 5 testKey emptyManifest).1.header.end_epoch_exclusive = Epoch.of ((5 + 10) % u64Size) ∧
     (create_notarized_transaction enkinetDef 5 testKey emptyManifest).1.header.notary_is_signatory = false ∧
     (create_notarized_transaction enkinetDef 5 testKey emptyManifest).1.header.tip_percentage = 0 ∧
     (create_notarized_transaction enkinetDef 5 testKey emptyManifest).1.header.notary_public_key = testKey.public_key) :=
  ⟨by norm_num [u64Size], C4_header_fields enkinetDef 5 testKey emptyManifest
    (by norm_num [u64Size])⟩

/-! ## C5 — epoch validity window under u64 arithmetic -/

/-- C5 counterexample: at the u64 boundary epoch `2 ^ 64 - 1`, the code
assembles a header (no failure) whose wrapped `end_epoch_exclusive` is not
greater than `start_epoch_inclusive` — refuting the claim that
`end_epoch > start_epoch` holds for every assembled header and that such a
construction fails fast. -/
theorem C5_counterexample :
    (create_notarized_transaction enkinetDef (u64Size - 1) testKey
        emptyManifest).1.header.end_epoch_exclusive.value ≤
      (create_notarized_transaction enkinetDef (u64Size - 1) testKey
        emptyManifest).1.header.start_epoch_inclusive.value := by
  norm_num [create_notarized_transaction, Epoch.of, u64Size]

/-- C5 (amended): for every epoch value whose validity window does not
overflow u64 (`e + 10 < 2 ^ 64`), the assembled header satisfies
`end_epoch_exclusive > start_epoch_inclusive`; at the u64 boundary the
addition wraps and the invariant fails with no fast failure. -/
theorem C5_epoch_window (nd : NetworkDefinition) (e : Nat)
    (pk : Secp256k1PrivateKey) (m : TransactionManifestV1)
    (h : e + 10 < u64Size) :
    (create_notarized_transaction nd e pk m).1.header.start_epoch_inclusive.value <
      (create_notarized_transaction nd e pk m).1.header.end_epoch_exclusive.value := by
  have he : e < u64Size := by omega
  simp [create_notarized_transaction, Epoch.of, Nat.mod_eq_of_lt he,
    Nat.mod_eq_of_lt h]

/-- C5 witness: the amended window theorem at a concrete epoch. -/
theorem C5_witness :
    100 + 10 < u64Size ∧
    (create_notarized_transaction enkinetDef 100 testKey
        emptyManifest).1.header.start_epoch_inclusive.value <
      (create_notarized_transaction enkinetDef 100 testKey
        emptyManifest).1.header.end_epoch_exclusive.value :=
  ⟨by norm_num [u64Size], C5_epoch_window enkinetDef 100 testKey emptyManifest
    (by norm_num [u64Size])⟩

/-! ## C6 — determinism of the intent hash -/

/-- C6: the intent hash is a deterministic pure function of the header and
manifest: two invocations of `create_notarized_transaction` with field-wise
equal network definitions, equal epochs, equal keys and identical manifest
bytes yield identical intent hashes. -/
theorem C6_intent_hash_deterministic (nd1 nd2 : NetworkDefinition)
    (e1 e2 : Nat) (pk1 pk2 : Secp256k1PrivateKey)
    (m1 m2 : TransactionManifestV1)
    (hid : nd1.id = nd2.id) (hname : nd1.logical_name = nd2.logical_name)
    (hhrp : nd1.hrp_suffix = nd2.hrp_suffix) (he : e1 = e2) (hk : pk1 = pk2)
    (hm : m1.bytes = m2.bytes) :
    (create_notarized_transaction nd1 e1 pk1 m1).2 =
      (create_notarized_transaction nd2 e2 pk2 m2).2 := by
  cases nd1; cases nd2; cases m1; cases m2
  simp_all

/-- C6 witness: the determinism theorem at concrete equal inputs. -/
theorem C6_witness :
    enkinetDef.id = enkinetDef.id ∧ emptyManifest.bytes = emptyManifest.bytes ∧
    (create_notarized_transaction enkinetDef 7 testKey emptyManifest).2 =
      (create_notarized_transaction enkinetDef 7 testKey emptyManifest).2 :=
  ⟨rfl, rfl, C6_intent_hash_deterministic enkinetDef enkinetDef 7 7 testKey
    testKey emptyManifest emptyManifest rfl rfl rfl rfl rfl rfl⟩

/-! ## C10 — network selection in `CliCtx::new` -/

/-- C10: `CliCtx::new` accepts exactly the two network names: `mardunet`
yields the context with id `0x24` and hrp suffix `tdx_24_`, `enkinet` yields
id `0x21` and hrp suffix `tdx_21_`, and every other name panics (modelled as
`Except.error`) during construction, before any gateway interaction. -/
theorem C10_network_selection :
    (∃ ctx, CliCtx.new MARDUNET_NETWORK_NAME = Except.ok ctx ∧
      ctx.network_definition.id = 0x24 ∧
      ctx.network_definition.hrp_suffix = MARDUNET_NETWORK_HRP_SUFFIX) ∧
    (∃ ctx, CliCtx.new NETWORK_NAME = Except.ok ctx ∧
      ctx.network_definition.id = 0x21 ∧
      ctx.network_definition.hrp_suffix = NETWORK_HRP_SUFFIX) ∧
    (∀ s : String, s ≠ MARDUNET_NETWORK_NAME → s ≠ NETWORK_NAME →
      CliCtx.new s = Except.error ("Network '" ++ s ++ "' not supported")) := by
  refine ⟨⟨_, rfl, rfl, rfl⟩, ⟨_, rfl, rfl, rfl⟩, ?_⟩
  intro s h1 h2
  simp [CliCtx.new, h1, h2]

/-- C10 witness: rejection of an unsupported network name via the theorem. -/
theorem C10_witness :
    badNetworkName ≠ MARDUNET_NETWORK_NAME ∧ badNetworkName ≠ NETWORK_NAME ∧
    CliCtx.new badNetworkName =
      Except.error ("Network '" ++ badNetworkName ++ "' not supported") :=
  ⟨by decide, by decide,
   C10_network_selection.2.2 badNetworkName (by decide) (by decide)⟩

/-! ## Polling loop lemmas (shared by C2, C3, C8, C9) -/

/-- Every event the polling loop records is a status query with index at
least the starting index. -/
theorem pollLoop_events (gw : GatewayOracle) :
    ∀ fuel i, ∀ e ∈ (pollLoop gw fuel i).2,
      ∃ j, i ≤ j ∧ e = GwEvent.statusQuery j := by
  intro fuel
  induction fuel with
  | zero => intro i e he; simp [pollLoop] at he
  | succ n ih =>
    intro i e he
    cases hst : gw.statusAt i with
    | fail =>
      simp only [pollLoop, hst] at he
      simp only [List.mem_cons] at he
      rcases he with h | h
      · exact ⟨i, le_refl i, h⟩
      · obtain ⟨j, hij, hj⟩ := ih (i + 1) e h
        exact ⟨j, by omega, hj⟩
    | ok s =>
      simp only [pollLoop, hst] at he
      by_cases hp : s == "Pending"
      · rw [if_pos hp] at he
        simp only [List.mem_cons] at he
        rcases he with h | h
        · exact ⟨i, le_refl i, h⟩
        · obtain ⟨j, hij, hj⟩ := ih (i + 1) e h
          exact ⟨j, by omega, hj⟩
      · rw [if_neg hp] at he
        simp only [List.mem_singleton] at he
        exact ⟨i, le_refl i, he⟩

/-- When the polling loop breaks with status `s`, then `s` is not
`"Pending"` and some status query actually reported `s`. -/
theorem pollLoop_exit (gw : GatewayOracle) :
    ∀ fuel i s, (pollLoop gw fuel i).1 = some s →
      s ≠ "Pending" ∧ ∃ j, i ≤ j ∧ gw.statusAt j = RawStatus.ok s := by
  intro fuel
  induction fuel with
  | zero => intro i s h; simp [pollLoop] at h
  | succ n ih =>
    intro i s h
    cases hst : gw.statusAt i with
    | fail =>
      simp only [pollLoop, hst] at h
      obtain ⟨hp, j, hij, hj⟩ := ih (i + 1) s h
      exact ⟨hp, j, by omega, hj⟩
    | ok s2 =>
      simp only [pollLoop, hst] at h
      by_cases hp : s2 == "Pending"
      · rw [if_pos hp] at h
        obtain ⟨hp2, j, hij, hj⟩ := ih (i + 1) s h
        exact ⟨hp2, j, by omega, hj⟩
      · rw [if_neg hp] at h
        simp only [Option.some.injEq] at h
        subst h
        refine ⟨?_, i, le_refl i, hst⟩
        intro hcontra
        subst hcontra
        simp at hp

/-- Dropping the first status-query outcome shifts the loop result. -/
theorem pollLoop_shift (gw : GatewayOracle) :
    ∀ fuel i, (pollLoop gw fuel (i + 1)).1 =
      (pollLoop gw.shiftStatus fuel i).1 := by
  intro fuel
  induction fuel with
  | zero => intro i; simp [pollLoop]
  | succ n ih =>
    intro i
    have hsc : gw.shiftStatus.statusAt i = gw.statusAt (i + 1) := rfl
    simp only [pollLoop, hsc]
    cases gw.statusAt (i + 1) with
    | fail => exact ih (i + 1)
    | ok s =>
      by_cases hp : s == "Pending"
      · simp only [if_pos hp]
        exact ih (i + 1)
      · simp only [if_neg hp]

/-- If the loop runs at least one iteration starting at index `i`, it
records status query `i`. -/
theorem pollLoop_first_event (gw : GatewayOracle) (fuel i : Nat) :
    GwEvent.statusQuery i ∈ (pollLoop gw (fuel + 1) i).2 := by
  simp only [pollLoop]
  cases gw.statusAt i with
  | fail => simp
  | ok s => by_cases hp : s == "Pending" <;> simp [hp]

/-- Trace shape of `execute_transaction`: the run opens with the epoch query
and exactly one submission, and everything after the submission is either a
status query or the final details query. -/
theorem execute_transaction_trace_shape (gw : GatewayOracle)
    (nd : NetworkDefinition) (pk : Secp256k1PrivateKey)
    (m : TransactionManifestV1) (fuel : Nat) :
    ∃ rest, (execute_transaction gw nd pk m fuel).2 =
        GwEvent.currentEpoch :: GwEvent.submit :: rest ∧
      GwEvent.submit ∉ rest ∧
      ∀ e ∈ rest, e = GwEvent.detailsQuery ∨ ∃ j, e = GwEvent.statusQuery j := by
  cases hm : gw.submitResult.message with
  | some msg =>
    refine ⟨[], ?_, by simp, by simp⟩
    simp [execute_transaction, hm]
  | none =>
    cases hr : (pollLoop gw fuel 0).1 with
    | none =>
      refine ⟨(pollLoop gw fuel 0).2, ?_, ?_, ?_⟩
      · simp [execute_transaction, hm, hr]
      · intro hmem
        obtain ⟨j, _, hj⟩ := pollLoop_events gw fuel 0 _ hmem
        simp at hj
      · intro e he
        obtain ⟨j, _, hj⟩ := pollLoop_events gw fuel 0 e he
        exact Or.inr ⟨j, hj⟩
    | some s =>
      refine ⟨(pollLoop gw fuel 0).2 ++ [GwEvent.detailsQuery], ?_, ?_, ?_⟩
      · simp [execute_transaction, hm, hr]
      · intro hmem
        simp only [List.mem_append, List.mem_singleton] at hmem
        rcases hmem with h | h
        · obtain ⟨j, _, hj⟩ := pollLoop_events gw fuel 0 _ h
          simp at hj
        · simp at h
      · intro e he
        simp only [List.mem_append, List.mem_singleton] at he
        rcases he with h | h
        · obtain ⟨j, _, hj⟩ := pollLoop_events gw fuel 0 e h
          exact Or.inr ⟨j, hj⟩
        · exact Or.inl h

/-- Under an unchanged remote state, every status query observed in a trace
reports the same value. -/
theorem queryResults_const (gw : GatewayOracle) (c : RawStatus)
    (hconst : ∀ i, gw.statusAt i = c) (evs : List GwEvent) :
    ∀ x ∈ queryResults gw evs, x = c := by
  intro x hx
  simp only [queryResults, List.mem_filterMap] at hx
  obtain ⟨e, _, hfe⟩ := hx
  cases e with
  | currentEpoch => simp at hfe
  | submit => simp at hfe
  | detailsQuery => simp at hfe
  | statusQuery j =>
    simp only [Option.some.injEq] at hfe
    rw [← hfe]
    exact hconst j

/-! ## C2 — details fetched only after a terminal status -/

/-- C2 counterexample: a gateway reporting the non-terminal status
`Unknown` makes the polling loop exit at once and `execute_transaction`
issue the details query — refuting the claim that `fetch_details` is issued
only after a terminal status (`CommittedSuccess`, `CommittedFailure` or
`Rejected`). -/
theorem C2_counterexample :
    execute_transaction gwUnknown enkinetDef testKey emptyManifest 1 =
      (ExecOutcome.finished unknownStatus ⟨[], none⟩,
       [GwEvent.currentEpoch, GwEvent.submit, GwEvent.statusQuery 0,
        GwEvent.detailsQuery]) ∧
    unknownStatus ≠ committedSuccessStatus ∧
    unknownStatus ≠ committedFailureStatus ∧
    unknownStatus ≠ rejectedStatus := by
  refine ⟨?_, by decide, by decide, by decide⟩
  decide

/-- C2 (amended): the details query is issued only when the run finished,
which requires that some status query reported a value different from
`"Pending"` (terminal or not — `Unknown` also exits the loop); the loop
exits exactly on the first non-`Pending` report. -/
theorem C2_details_only_after_nonpending (gw : GatewayOracle)
    (nd : NetworkDefinition) (pk : Secp256k1PrivateKey)
    (m : TransactionManifestV1) (fuel : Nat)
    (h : GwEvent.detailsQuery ∈ (execute_transaction gw nd pk m fuel).2) :
    ∃ s, (execute_transaction gw nd pk m fuel).1 =
        ExecOutcome.finished s gw.txDetails ∧
      s ≠ "Pending" ∧ ∃ j, gw.statusAt j = RawStatus.ok s := by
  cases hm : gw.submitResult.message with
  | some msg =>
    simp [execute_transaction, hm] at h
  | none =>
    cases hr : (pollLoop gw fuel 0).1 with
    | none =>
      simp only [execute_transaction, hm, hr] at h
      simp only [List.mem_cons] at h
      rcases h with h | h | h
      · simp at h
      · simp at h
      · obtain ⟨j, _, hj⟩ := pollLoop_events gw fuel 0 _ h
        simp at hj
    | some s =>
      obtain ⟨hp, j, _, hj⟩ := pollLoop_exit gw fuel 0 s hr
      refine ⟨s, ?_, hp, j, hj⟩
      simp [execute_transaction, hm, hr]

/-- C2 witness: the amended theorem at a gateway that reports `Pending`
then `CommittedSuccess`. -/
theorem C2_witness :
    GwEvent.detailsQuery ∈
      (execute_transaction gwSuccess enkinetDef testKey emptyManifest 3).2 ∧
    ∃ s, (execute_transaction gwSuccess enkinetDef testKey emptyManifest 3).1 =
        ExecOutcome.finished s gwSuccess.txDetails ∧
      s ≠ "Pending" ∧ ∃ j, gwSuccess.statusAt j = RawStatus.ok s :=
  ⟨by decide,
   C2_details_only_after_nonpending gwSuccess enkinetDef testKey emptyManifest
    3 (by decide)⟩

/-! ## C3 — fatal submission errors bypass the polling loop -/

/-- C3: when the gateway's submission response carries a validation error
message, `execute_transaction` fails fatally (the `panic!` branch) and the
polling loop is never entered: no status query appears in the trace. -/
theorem C3_submit_error_no_polling (gw : GatewayOracle)
    (nd : NetworkDefinition) (pk : Secp256k1PrivateKey)
    (m : TransactionManifestV1) (fuel : Nat) (msg : String)
    (h : gw.submitResult.message = some msg) :
    execute_transaction gw nd pk m fuel =
      (ExecOutcome.submitFailed msg,
       [GwEvent.currentEpoch, GwEvent.submit]) ∧
    ∀ j, GwEvent.statusQuery j ∉ (execute_transaction gw nd pk m fuel).2 := by
  have h1 : execute_transaction gw nd pk m fuel =
      (ExecOutcome.submitFailed msg, [GwEvent.currentEpoch, GwEvent.submit]) := by
    simp [execute_transaction, h]
  refine ⟨h1, ?_⟩
  intro j
  rw [h1]
  simp

/-- C3 witness: the theorem at a gateway that rejects the submission. -/
theorem C3_witness :
    gwSubmitRejected.submitResult.message = some submitErrMsg ∧
    execute_transaction gwSubmitRejected enkinetDef testKey emptyManifest 5 =
      (ExecOutcome.submitFailed submitErrMsg,
       [GwEvent.currentEpoch, GwEvent.submit]) :=
  ⟨rfl, (C3_submit_error_no_polling gwSubmitRejected enkinetDef testKey
    emptyManifest 5 submitErrMsg rfl).1⟩

/-! ## C8 — exactly one submission, sequential idempotent polling -/

/-- C8: in every run — for every gateway oracle, including ones whose
status changes across polls — the transaction is submitted exactly once,
before any status query: the trace opens with the epoch query and the
single submission, no later event is a submission, and every later event is
a status or details query; and whenever the remote state is unchanged
(every status query maps to the same outcome), all status queries in the
trace yield that identical result. -/
theorem C8_single_submission (gw : GatewayOracle) (nd : NetworkDefinition)
    (pk : Secp256k1PrivateKey) (m : TransactionManifestV1) (fuel : Nat) :
    (∃ rest, (execute_transaction gw nd pk m fuel).2 =
        GwEvent.currentEpoch :: GwEvent.submit :: rest ∧
      GwEvent.submit ∉ rest ∧
      ∀ e ∈ rest, e = GwEvent.detailsQuery ∨ ∃ j, e = GwEvent.statusQuery j) ∧
    ∀ c : RawStatus, (∀ i, gw.statusAt i = c) →
      ∀ x ∈ queryResults gw (execute_transaction gw nd pk m fuel).2, x = c :=
  ⟨execute_transaction_trace_shape gw nd pk m fuel,
   fun c hconst => queryResults_const gw c hconst _⟩

/-- C8 witness: the unconditional single-submission trace shape at a
gateway whose status changes across polls (`Pending` then
`CommittedSuccess`), and the idempotence clause at a gateway with unchanged
remote state, discharging its hypothesis. -/
theorem C8_witness :
    (∃ rest,
        (execute_transaction gwSuccess enkinetDef testKey emptyManifest
          3).2 = GwEvent.currentEpoch :: GwEvent.submit :: rest ∧
        GwEvent.submit ∉ rest ∧
        ∀ e ∈ rest,
          e = GwEvent.detailsQuery ∨ ∃ j, e = GwEvent.statusQuery j) ∧
    (∀ i, gwConstSuccess.statusAt i = RawStatus.ok committedSuccessStatus) ∧
    ∀ x ∈ queryResults gwConstSuccess
        (execute_transaction gwConstSuccess enkinetDef testKey emptyManifest
          4).2, x = RawStatus.ok committedSuccessStatus :=
  ⟨(C8_single_submission gwSuccess enkinetDef testKey emptyManifest 3).1,
   fun _ => rfl,
   (C8_single_submission gwConstSuccess enkinetDef testKey emptyManifest 4).2
    (RawStatus.ok committedSuccessStatus) (fun _ => rfl)⟩

/-! ## C9 — transient status-query failures are retried in place -/

/-- C9: when the first status query fails transiently, the loop retries the
query itself: the run's outcome equals the outcome with the failure dropped
from the stream, the transaction is still submitted exactly once, and
(given another iteration of fuel) the next status query is issued. -/
theorem C9_transient_failure_retry (gw : GatewayOracle)
    (nd : NetworkDefinition) (pk : Secp256k1PrivateKey)
    (m : TransactionManifestV1) (fuel : Nat)
    (hs : gw.submitResult.message = none)
    (hf : gw.statusAt 0 = RawStatus.fail) :
    (execute_transaction gw nd pk m (fuel + 1)).1 =
      (execute_transaction gw.shiftStatus nd pk m fuel).1 ∧
    (∃ rest, (execute_transaction gw nd pk m (fuel + 1)).2 =
        GwEvent.currentEpoch :: GwEvent.submit :: rest ∧
      GwEvent.submit ∉ rest) ∧
    (0 < fuel →
      GwEvent.statusQuery 1 ∈ (execute_transaction gw nd pk m (fuel + 1)).2) := by
  have hs2 : gw.shiftStatus.submitResult.message = none := hs
  have hloop : (pollLoop gw (fuel + 1) 0).1 = (pollLoop gw.shiftStatus fuel 0).1 := by
    simp only [pollLoop, hf]
    exact pollLoop_shift gw fuel 0
  refine ⟨?_, ?_, ?_⟩
  · simp only [execute_transaction, hs, hs2, hloop]
    cases (pollLoop gw.shiftStatus fuel 0).1 <;> rfl
  · obtain ⟨rest, hr, hns, _⟩ :=
      execute_transaction_trace_shape gw nd pk m (fuel + 1)
    exact ⟨rest, hr, hns⟩
  · intro hfuel
    obtain ⟨f2, hf2⟩ : ∃ f2, fuel = f2 + 1 := ⟨fuel - 1, by omega⟩
    subst hf2
    have hmem : GwEvent.statusQuery 1 ∈ (pollLoop gw (f2 + 1 + 1) 0).2 := by
      simp only [pollLoop, hf]
      simp only [List.mem_cons]
      exact Or.inr (pollLoop_first_event gw f2 1)
    cases hr : (pollLoop gw (f2 + 1 + 1) 0).1 with
    | none =>
      simp only [execute_transaction, hs, hr]
      simp only [List.mem_cons]
      exact Or.inr (Or.inr hmem)
    | some s =>
      simp only [execute_transaction, hs, hr]
      simp only [List.mem_cons, List.mem_append]
      exact Or.inr (Or.inr (Or.inl hmem))

/-- C9 witness: the theorem at a gateway whose first status query fails. -/
theorem C9_witness :
    gwFlaky.submitResult.message = none ∧
    gwFlaky.statusAt 0 = RawStatus.fail ∧
    ((execute_transaction gwFlaky enkinetDef testKey emptyManifest (2 + 1)).1 =
      (execute_transaction gwFlaky.shiftStatus enkinetDef testKey emptyManifest
        2).1 ∧
     (∃ rest,
        (execute_transaction gwFlaky enkinetDef testKey emptyManifest
          (2 + 1)).2 = GwEvent.currentEpoch :: GwEvent.submit :: rest ∧
        GwEvent.submit ∉ rest) ∧
     (0 < 2 → GwEvent.statusQuery 1 ∈
        (execute_transaction gwFlaky enkinetDef testKey emptyManifest
          (2 + 1)).2)) :=
  ⟨rfl, rfl, C9_transient_failure_retry gwFlaky enkinetDef testKey
    emptyManifest 2 rfl rfl⟩

/-! ## Codec lemmas (shared helpers for C7) -/

/-- Regrouping the five bits of a 5-bit value recovers the bits. -/
theorem val5Bits_bits5Val : ∀ a b c d e : Bool,
    val5Bits (bits5Val a b c d e) = [a, b, c, d, e] := by decide

/-- Every 5-bit value is below 32. -/
theorem bits5Val_lt : ∀ a b c d e : Bool, bits5Val a b c d e < 32 := by decide

/-- The data charset maps each value below 32 to a character and back. -/
theorem charToVal_valToChar : ∀ v, v < 32 → charToVal (valToChar v) = some v := by
  decide

/-- Ungrouping the 5-bit groups of a bit sequence of length divisible by
five recovers the sequence. -/
theorem ungroup5_group5 : ∀ l : List Bool, l.length % 5 = 0 →
    ungroup5 (group5 l) = l
  | [], _ => rfl
  | a :: b :: c :: d :: e :: rest, h => by
    have h5 : rest.length % 5 = 0 := by
      simp only [List.length_cons] at h
      omega
    simp [group5, ungroup5, val5Bits_bits5Val, ungroup5_group5 rest h5]
  | [a], h => by
    simp only [List.length_cons, List.length_nil] at h
    omega
  | [a, b], h => by
    simp only [List.length_cons, List.length_nil] at h
    omega
  | [a, b, c], h => by
    simp only [List.length_cons, List.length_nil] at h
    omega
  | [a, b, c, d], h => by
    simp only [List.length_cons, List.length_nil] at h
    omega

/-- Every 5-bit group value is below 32. -/
theorem group5_mem_lt : ∀ l : List Bool, ∀ v ∈ group5 l, v < 32
  | a :: b :: c :: d :: e :: rest, v, hv => by
    simp only [group5, List.mem_cons] at hv
    rcases hv with h | h
    · subst h; exact bits5Val_lt a b c d e
    · exact group5_mem_lt rest v h
  | [], v, hv => absurd hv (List.not_mem_nil v)
  | [a], v, hv => absurd hv (List.not_mem_nil v)
  | [a, b], v, hv => absurd hv (List.not_mem_nil v)
  | [a, b, c], v, hv => absurd hv (List.not_mem_nil v)
  | [a, b, c, d], v, hv => absurd hv (List.not_mem_nil v)

/-- Peeling eight bits off the front of a bit sequence. -/
theorem bitsToBytes_cons8 (b0 b1 b2 b3 b4 b5 b6 b7 : Bool) (t : List Bool) :
    bitsToBytes (b0 :: b1 :: b2 :: b3 :: b4 :: b5 :: b6 :: b7 :: t) =
      bits8Val b0 b1 b2 b3 b4 b5 b6 b7 :: bitsToBytes t := rfl

set_option maxRecDepth 4096 in
/-- The value of the eight bits of a byte is the byte. -/
theorem bits8Val_byteBits : ∀ n, n < 256 →
    bits8Val (n / 128 % 2 == 1) (n / 64 % 2 == 1) (n / 32 % 2 == 1)
      (n / 16 % 2 == 1) (n / 8 % 2 == 1) (n / 4 % 2 == 1) (n / 2 % 2 == 1)
      (n % 2 == 1) = n := by decide

/-- Fewer than eight bits produce no byte. -/
theorem bitsToBytes_short : ∀ l : List Bool, l.length < 8 → bitsToBytes l = []
  | [], _ => rfl
  | [_], _ => rfl
  | [_, _], _ => rfl
  | [_, _, _], _ => rfl
  | [_, _, _, _], _ => rfl
  | [_, _, _, _, _], _ => rfl
  | [_, _, _, _, _, _], _ => rfl
  | [_, _, _, _, _, _, _], _ => rfl
  | _ :: _ :: _ :: _ :: _ :: _ :: _ :: _ :: rest, hl => by
    simp only [List.length_cons] at hl
    omega

/-- Regrouping the bit sequence of a byte string into bytes recovers the
bytes, and fewer than eight trailing padding bits are discarded. -/
theorem bitsToBytes_bytesToBits : ∀ b : List Nat, (∀ x ∈ b, x < 256) →
    ∀ extra : List Bool, extra.length < 8 →
    bitsToBytes (bytesToBits b ++ extra) = b
  | [], _, extra, hx => bitsToBytes_short extra hx
  | n :: rest, hb, extra, hx => by
    have hn : n < 256 := hb n (List.mem_cons_self n rest)
    have hrest : ∀ x ∈ rest, x < 256 := fun x hxm =>
      hb x (List.mem_cons_of_mem n hxm)
    simp only [bytesToBits, byteBits, List.cons_append, List.append_assoc,
      List.nil_append]
    rw [bitsToBytes_cons8, bits8Val_byteBits n hn,
      bitsToBytes_bytesToBits rest hrest extra hx]

/-- Unfolding of the zero padding to a multiple of five bits. -/
theorem pad5_eq (l : List Bool) :
    pad5 l = l ++ List.replicate ((5 - l.length % 5) % 5) false := rfl

/-- The padded bit sequence has length divisible by five. -/
theorem pad5_length_mod (l : List Bool) : (pad5 l).length % 5 = 0 := by
  simp only [pad5, List.length_append, List.length_replicate]
  omega

/-- Mapping values below 32 to characters and back yields the values. -/
theorem allVals_map_valToChar (vals : List Nat)
    (hv : ∀ v ∈ vals, v < 32) :
    allVals (vals.map valToChar) = some vals := by
  induction vals with
  | nil => rfl
  | cons v rest ih =>
    have h1 : charToVal (valToChar v) = some v :=
      charToVal_valToChar v (hv v (List.mem_cons_self v rest))
    have h2 := ih fun x hx => hv x (List.mem_cons_of_mem v hx)
    simp [allVals, h1, h2]

/-- Every checksum digit is below 32. -/
theorem checksumDigits_mem_lt (n : Nat) : ∀ d ∈ checksumDigits n, d < 32 := by
  intro d hd
  simp only [checksumDigits, List.mem_cons, List.not_mem_nil, or_false] at hd
  rcases hd with h | h | h | h | h | h <;> subst h <;>
    exact Nat.mod_lt _ (by norm_num)

/-- Taking the length of the left part of an appended list yields it. -/
theorem take_len_append {α : Type _} (l r : List α) :
    (l ++ r).take l.length = l := by
  induction l with
  | nil => simp
  | cons a as ih => simp [ih]

/-- Dropping the length of the left part of an appended list yields the rest. -/
theorem drop_len_append {α : Type _} (l r : List α) :
    (l ++ r).drop l.length = r := by
  induction l with
  | nil => simp
  | cons a as ih => simp [ih]

/-- A list leads any extension of itself. -/
theorem leadsList_append : ∀ pre rest : List Char,
    leadsList pre (pre ++ rest) = true
  | [], _ => rfl
  | a :: as, rest => by simp [leadsList, leadsList_append as rest]

/-- Decoding a well-formed encoded text for its own entity kind: the prefix
and checksum checks pass and the byte regrouping is handed to the length
check. -/
theorem decodeForKind_on_encoded (nd : NetworkDefinition) (k : EntityKind)
    (vals : List Nat) (hv : ∀ v ∈ vals, v < 32) :
    decodeForKind nd k (hrpOf nd k ++ '1' ::
        (vals.map valToChar ++
          (checksumDigits (checksumNat (hrpOf nd k) vals)).map valToChar)) =
      if (bitsToBytes (ungroup5 vals)).length = entityLen k then
        some (bitsToBytes (ungroup5 vals))
      else none := by
  have hsplit : hrpOf nd k ++ '1' ::
      (vals.map valToChar ++
        (checksumDigits (checksumNat (hrpOf nd k) vals)).map valToChar) =
      (hrpOf nd k ++ ['1']) ++
        (vals.map valToChar ++
          (checksumDigits (checksumNat (hrpOf nd k) vals)).map valToChar) := by
    simp
  have hPlen : (vals.map valToChar ++
      (checksumDigits (checksumNat (hrpOf nd k) vals)).map valToChar).length =
      vals.length + 6 := by
    simp [checksumDigits]
  have hdrop1 : ((hrpOf nd k ++ ['1']) ++
      (vals.map valToChar ++
        (checksumDigits (checksumNat (hrpOf nd k) vals)).map valToChar)).drop
        ((hrpOf nd k).length + 1) =
      vals.map valToChar ++
        (checksumDigits (checksumNat (hrpOf nd k) vals)).map valToChar := by
    have hl : (hrpOf nd k).length + 1 = (hrpOf nd k ++ ['1']).length := by simp
    rw [hl, drop_len_append]
  have htake : (vals.map valToChar ++
      (checksumDigits (checksumNat (hrpOf nd k) vals)).map valToChar).take
        ((vals.map valToChar ++
          (checksumDigits (checksumNat (hrpOf nd k) vals)).map valToChar).length
          - 6) =
      vals.map valToChar := by
    have h6 : (vals.map valToChar ++
        (checksumDigits (checksumNat (hrpOf nd k) vals)).map valToChar).length
        - 6 = (vals.map valToChar).length := by
      rw [hPlen]; simp
    rw [h6, take_len_append]
  have hdrop2 : (vals.map valToChar ++
      (checksumDigits (checksumNat (hrpOf nd k) vals)).map valToChar).drop
        ((vals.map valToChar ++
          (checksumDigits (checksumNat (hrpOf nd k) vals)).map valToChar).length
          - 6) =
      (checksumDigits (checksumNat (hrpOf nd k) vals)).map valToChar := by
    have h6 : (vals.map valToChar ++
        (checksumDigits (checksumNat (hrpOf nd k) vals)).map valToChar).length
        - 6 = (vals.map valToChar).length := by
      rw [hPlen]; simp
    rw [h6, drop_len_append]
  have hm1 : allVals (vals.map valToChar) = some vals :=
    allVals_map_valToChar vals hv
  have hm2 : allVals ((checksumDigits (checksumNat (hrpOf nd k) vals)).map
      valToChar) = some (checksumDigits (checksumNat (hrpOf nd k) vals)) :=
    allVals_map_valToChar _ (checksumDigits_mem_lt _)
  rw [hsplit]
  simp only [decodeForKind, leadsList_append, if_true, hdrop1]
  rw [if_neg (by rw [hPlen]; omega)]
  rw [htake, hdrop2, hm1, hm2]
  simp

/-- Round trip of the encoder and the kind-directed decoder. -/
theorem decodeForKind_encodeAddr (nd : NetworkDefinition) (k : EntityKind)
    (b : List Nat) (hlen : b.length = entityLen k)
    (hb : ∀ x ∈ b, x < 256) :
    decodeForKind nd k (encodeAddr nd k b) = some b := by
  have hvals := group5_mem_lt (pad5 (bytesToBits b))
  have hbytes : bitsToBytes (ungroup5 (group5 (pad5 (bytesToBits b)))) = b := by
    rw [ungroup5_group5 _ (pad5_length_mod _), pad5_eq]
    refine bitsToBytes_bytesToBits b hb _ ?_
    rw [List.length_replicate]
    have h5 := Nat.mod_lt (5 - (bytesToBits b).length % 5) (show 0 < 5 by norm_num)
    omega
  have henc : encodeAddr nd k b = hrpOf nd k ++ '1' ::
      ((group5 (pad5 (bytesToBits b))).map valToChar ++
        (checksumDigits (checksumNat (hrpOf nd k)
          (group5 (pad5 (bytesToBits b))))).map valToChar) := rfl
  rw [henc, decodeForKind_on_encoded nd k _ hvals, hbytes, if_pos hlen]

/-- A transaction-id encoding is rejected by the package-address decode
attempt: the human-readable parts differ at their first character. -/
theorem decodeForKind_pkg_on_txid (nd : NetworkDefinition) (b : List Nat) :
    decodeForKind nd EntityKind.packageAddress
      (encodeAddr nd EntityKind.transactionId b) = none := by
  have hpt : ('p' == 't') = false := by decide
  have h : leadsList (hrpOf nd EntityKind.packageAddress ++ ['1'])
      (encodeAddr nd EntityKind.transactionId b) = false := by
    simp only [encodeAddr, hrpOf, kindHrpPart, List.cons_append,
      List.append_assoc, List.nil_append]
    simp [leadsList, hpt]
  simp [decodeForKind, h]

/-! ## C7 — codec round trip -/

/-- C7: for every byte string of the correct fixed length for its entity
kind, decoding the encoding under the bound network context returns the
original bytes (and recognises the kind); instantiated by the witness at
the network with id `0x21` and hrp suffix `tdx_21_` on a 30-byte
package-address value. -/
theorem C7_roundtrip (nd : NetworkDefinition) (k : EntityKind)
    (b : List Nat) (hlen : b.length = entityLen k)
    (hb : ∀ x ∈ b, x < 256) :
    decodeAddr nd (encodeAddr nd k b) = some (k, b) := by
  cases k with
  | packageAddress =>
    simp [decodeAddr,
      decodeForKind_encodeAddr nd EntityKind.packageAddress b hlen hb]
  | transactionId =>
    simp [decodeAddr, decodeForKind_pkg_on_txid nd b,
      decodeForKind_encodeAddr nd EntityKind.transactionId b hlen hb]

/-- C7 witness: the round trip at the Enkinet network (id `0x21`, hrp
suffix `tdx_21_`) on a concrete 30-byte package-address raw value. -/
theorem C7_witness :
    samplePackageBytes.length = entityLen EntityKind.packageAddress ∧
    (∀ x ∈ samplePackageBytes, x < 256) ∧
    decodeAddr enkinetDef
        (encodeAddr enkinetDef EntityKind.packageAddress samplePackageBytes) =
      some (EntityKind.packageAddress, samplePackageBytes) :=
  ⟨by decide, by decide,
   C7_roundtrip enkinetDef EntityKind.packageAddress samplePackageBytes
    (by decide) (by decide)⟩
